import Mathlib

/-! # Verification of the Radar serial decoder and renderer

A shallow embedding of `src/Radar.py`: the streaming serial-frame decoder
(`read_serial`, lines 216-249), the polar projection
(`processing_to_screen`, lines 78-88), the detection decision
(`draw_object`, lines 130-149) and the status overlay (`draw_text`,
lines 164-201), together with theorems about the specified properties.

Byte chunks are `List Nat`, decoded text is `List Char`.  Python's
unbounded `int` is `Int`; the float arithmetic of the projection is
modelled over `ℝ` with `int()` as truncation toward zero.
-/

namespace Radar

/-! ## Configuration constants (Radar.py lines 14-28) -/

def WIDTH : Int := 480
def HEIGHT : Int := 320
def RADAR_CX : Int := 240
def RADAR_CY : Int := 210
def RADAR_RADIUS : Int := 200

/-! ## Decoder data model

`Sample` is one decoded (angle, distance) reading; `DecSt` is the
decoder state: the accumulated text buffer `serial_buffer` (line 44)
plus the current sample globals `i_angle`, `i_distance` (lines 52-53).
-/

structure Sample where
  angle : Int
  distance : Int
deriving DecidableEq, Repr

structure DecSt where
  buf : List Char
  iAngle : Int
  iDistance : Int
deriving DecidableEq, Repr

/-- Initial value of the global `i_angle` (Radar.py line 52). -/
def i_angle0 : Int := 0

/-- Initial value of the global `i_distance` (Radar.py line 53). -/
def i_distance0 : Int := 0

/-! ## Python `str.strip` and `int(...)` -/

/-- Characters stripped by Python's `str.strip()` (`str.isspace`). -/
def isPySpace (c : Char) : Bool :=
  [9, 10, 11, 12, 13, 28, 29, 30, 31, 32, 133, 160, 5760,
   8192, 8193, 8194, 8195, 8196, 8197, 8198, 8199, 8200, 8201, 8202,
   8232, 8233, 8239, 8287, 12288].contains c.toNat

/-- Python `str.strip()`: drop leading and trailing whitespace. -/
def stripPy (l : List Char) : List Char :=
  ((l.dropWhile isPySpace).reverse.dropWhile isPySpace).reverse

/-- Value of an ASCII decimal digit, `none` for any other character. -/
def digitVal (c : Char) : Option Nat :=
  if '0' ≤ c ∧ c ≤ '9' then some (c.toNat - 48) else none

/-- Digit tail of a Python base-10 integer literal: digits with single
underscores allowed between digits (as accepted by `int(...)`). -/
def pyDigits (acc : Nat) : List Char → Option Nat
  | [] => some acc
  | c :: rest =>
    match digitVal c with
    | some v => pyDigits (10 * acc + v) rest
    | none =>
      if c = '_' then
        match rest with
        | c2 :: rest2 =>
          match digitVal c2 with
          | some v => pyDigits (10 * acc + v) rest2
          | none => none
        | [] => none
      else none

/-- Unsigned part of a Python integer literal: must start with a digit. -/
def pyUnsigned : List Char → Option Int
  | [] => none
  | c :: rest =>
    match digitVal c with
    | some v => (pyDigits v rest).map Int.ofNat
    | none => none

/-- Sign handling of Python `int(...)`. -/
def pyIntCore : List Char → Option Int
  | [] => none
  | '+' :: rest => pyUnsigned rest
  | '-' :: rest => (pyUnsigned rest).map (fun n => -n)
  | l => pyUnsigned l

/-- Python `int(s)` on a decimal string: strips whitespace, optional
sign, ASCII digits with optional single underscores between digits.
(Non-ASCII decimal digits, also accepted by Python, never occur in the
wire format and are not modelled.) -/
def pyInt (l : List Char) : Option Int := pyIntCore (stripPy l)

/-! ## Splitting: Python `s.split(sep, 1)` -/

/-- First-occurrence split: `findSep sep l = some (before, after)` when
`sep` occurs in `l`, mirroring Python's `l.split(sep, 1)` (and the
`sep in l` membership test: `none` exactly when absent). -/
def findSep (sep : Char) : List Char → Option (List Char × List Char)
  | [] => none
  | c :: rest =>
    if c = sep then some ([], rest)
    else
      match findSep sep rest with
      | none => none
      | some (m, r) => some (c :: m, r)

/-! ## Message processing (Radar.py lines 242-249)

```
if ',' in msg:
    angle_str, distance_str = msg.split(',', 1)
    try:
        i_angle = int(angle_str.strip())
        i_distance = int(distance_str.strip())
    except ValueError:
        pass
```

Note the two assignments run in order inside the `try`: when the angle
field parses but the distance field does not, `i_angle` has already
been overwritten before the `ValueError` is raised, so the state is
partially updated.  A `Sample` is emitted only when both parse. -/

def processMsg (m : List Char) (a d : Int) : (Int × Int) × Option Sample :=
  match findSep ',' m with
  | none => ((a, d), none)
  | some (astr, dstr) =>
    match pyInt (stripPy astr) with
    | none => ((a, d), none)
    | some a2 =>
      match pyInt (stripPy dstr) with
      | none => ((a2, d), none)
      | some d2 => ((a2, d2), some ⟨a2, d2⟩)

/-! ## The drain loop (Radar.py lines 240-249)

```
while '.' in serial_buffer:
    msg, serial_buffer = serial_buffer.split('.', 1)
    ...
```

Each iteration removes the first terminator from the buffer, so the
loop makes at most `buf.length` iterations; `drainGo` carries that
bound as structural fuel and `drain` instantiates it, which is proved
sufficient below (`drainGo_congr`, `drain_eq_none`, `drain_eq_some`). -/

def drainGo : Nat → DecSt → DecSt × List Sample
  | 0, st => (st, [])
  | n + 1, st =>
    match findSep '.' st.buf with
    | none => (st, [])
    | some (m, r) =>
      let pr := processMsg m st.iAngle st.iDistance
      let q := drainGo n { buf := r, iAngle := pr.1.1, iDistance := pr.1.2 }
      (q.1, pr.2.toList ++ q.2)

def drain (st : DecSt) : DecSt × List Sample := drainGo st.buf.length st

/-! ## Feeding chunks (Radar.py lines 231-249) -/

/-- Process one already-decoded text chunk: append to the buffer
(`serial_buffer += chunk`, line 237) and run the drain loop. -/
def feedText (st : DecSt) (chunk : List Char) : DecSt × List Sample :=
  drain { buf := st.buf ++ chunk, iAngle := st.iAngle, iDistance := st.iDistance }

/-! ## UTF-8 decoding with `errors="ignore"` (Radar.py line 233)

`chunk = ser.read(bytes_available).decode("utf-8", errors="ignore")`:
invalid byte sequences never raise; the maximal subpart of each
ill-formed sequence is skipped and decoding continues with the next
byte.  `utf8DecodeIgnoreAux` returns the decoded characters together
with a flag recording whether the whole input was well-formed. -/

/-- An in-progress multi-byte sequence: code-point bits accumulated so
far, continuation bytes still needed, and the allowed range for the
next byte (the first continuation range depends on the lead byte, to
exclude overlong forms, surrogates and code points above U+10FFFF;
afterwards it is always 128-191). -/
structure Utf8Pending where
  acc : Nat
  need : Nat
  lo : Nat
  hi : Nat
deriving DecidableEq, Repr

inductive Utf8Step where
  | chr (c : Char)
  | pend (p : Utf8Pending)
  | bad
deriving DecidableEq, Repr

/-- Classify a byte in lead position. -/
def utf8Begin (b : Nat) : Utf8Step :=
  if b < 128 then .chr (Char.ofNat b)
  else if 194 ≤ b ∧ b ≤ 223 then
    .pend ⟨b - 192, 1, 128, 191⟩
  else if 224 ≤ b ∧ b ≤ 239 then
    .pend ⟨b - 224, 2, if b = 224 then 160 else 128, if b = 237 then 159 else 191⟩
  else if 240 ≤ b ∧ b ≤ 244 then
    .pend ⟨b - 240, 3, if b = 240 then 144 else 128, if b = 244 then 143 else 191⟩
  else .bad

/-- Decode bytes left to right.  On an invalid byte the maximal subpart
of the ill-formed sequence ends: the pending bytes are skipped, the
flag is cleared, and the offending byte is reconsidered as a fresh
lead, exactly as Python's `errors="ignore"` handler resumes. -/
def utf8DecodeIgnoreAux : Option Utf8Pending → List Nat → List Char × Bool
  | none, [] => ([], true)
  | some _, [] => ([], false)
  | none, b :: rest =>
    match utf8Begin b with
    | .chr c =>
      let q := utf8DecodeIgnoreAux none rest
      (c :: q.1, q.2)
    | .pend p => utf8DecodeIgnoreAux (some p) rest
    | .bad => ((utf8DecodeIgnoreAux none rest).1, false)
  | some p, b :: rest =>
    if p.lo ≤ b ∧ b ≤ p.hi then
      if p.need = 1 then
        let q := utf8DecodeIgnoreAux none rest
        (Char.ofNat (p.acc * 64 + (b - 128)) :: q.1, q.2)
      else utf8DecodeIgnoreAux (some ⟨p.acc * 64 + (b - 128), p.need - 1, 128, 191⟩) rest
    else
      match utf8Begin b with
      | .chr c => (c :: (utf8DecodeIgnoreAux none rest).1, false)
      | .pend p2 => ((utf8DecodeIgnoreAux (some p2) rest).1, false)
      | .bad => ((utf8DecodeIgnoreAux none rest).1, false)

/-- `bytes.decode("utf-8", errors="ignore")`. -/
def utf8DecodeIgnore (l : List Nat) : List Char := (utf8DecodeIgnoreAux none l).1

/-- Whether the byte sequence is well-formed UTF-8 (whether a strict
`bytes.decode("utf-8")` would succeed). -/
def utf8ValidText (l : List Nat) : Bool := (utf8DecodeIgnoreAux none l).2

/-- One call of `read_serial` past the transport poll (lines 231-249):
a positive number of available bytes is read, decoded with errors
ignored, appended to the buffer, and every terminated message is
processed; with no bytes available the call returns at once. -/
def feedBytes (st : DecSt) (c : List Nat) : DecSt × List Sample :=
  if 0 < c.length then feedText st (utf8DecodeIgnore c) else (st, [])

/-- Sequential feed calls of the host loop, accumulating the decoded
samples in order. -/
def feedManyBytes : DecSt → List (List Nat) → DecSt × List Sample
  | st, [] => (st, [])
  | st, c :: cs =>
    let p := feedBytes st c
    let q := feedManyBytes p.1 cs
    (q.1, p.2 ++ q.2)

/-- UTF-8 bytes of an ASCII string literal, for readable test inputs. -/
def strBytes (s : String) : List Nat := s.data.map Char.toNat

/-! ## Geometry (Radar.py lines 78-88, 130-149)

Python float arithmetic is modelled over `ℝ`; `int(x)` truncates
toward zero. -/

/-- Python `int(x)` on a float: truncation toward zero. -/
noncomputable def pyTrunc (x : ℝ) : Int := if 0 ≤ x then ⌊x⌋ else ⌈x⌉

/-- `processing_to_screen` (lines 78-88): local radar coordinates
(origin at the radar center, y up) to pixel coordinates (y down),
truncated to integers. -/
noncomputable def processing_to_screen (xLocal yLocal : ℝ) : Int × Int :=
  (pyTrunc ((RADAR_CX : ℝ) + xLocal), pyTrunc ((RADAR_CY : ℝ) - yLocal))

/-- The projection written from the words of the specification:
`pixelX = Cx + xLocal`, `pixelY = Cy - yLocal`, truncated to integer
pixel coordinates, with the fixed center (240, 210). -/
noncomputable def toScreen_specification (xLocal yLocal : ℝ) : Int × Int :=
  (pyTrunc ((240 : ℝ) + xLocal), pyTrunc ((210 : ℝ) - yLocal))

/-- The polar-to-local conversion used at lines 122-124 and 135-141:
`(r·cos(radians deg), r·sin(radians deg))`. -/
noncomputable def polarToLocal (deg r : ℝ) : ℝ × ℝ :=
  (r * Real.cos (deg * Real.pi / 180), r * Real.sin (deg * Real.pi / 180))

/-- `draw_object` (lines 130-149): when `i_distance < 40`, the scaled
detection point (at `i_distance * 5` pixels) and the range-edge point
at the same angle are projected and a line plus a circle are drawn;
otherwise nothing is drawn.  The result is the drawn pair of pixel
endpoints (the circle sits at the first). -/
noncomputable def draw_object (a d : Int) : Option ((Int × Int) × (Int × Int)) :=
  if d < 40 then
    let pix : ℝ := (d : ℝ) * 5
    let p1 := polarToLocal (a : ℝ) pix
    let p2 := polarToLocal (a : ℝ) ((RADAR_RADIUS : ℝ))
    some (processing_to_screen p1.1 p1.2, processing_to_screen p2.1 p2.2)
  else none

/-! ## Status overlay (Radar.py lines 164-201) -/

/-- Left-pad with zeros to the given width, as Python's `{:03d}` pads
the digit block. -/
def padZeros (w : Nat) (s : List Char) : List Char :=
  List.replicate (w - s.length) '0' ++ s

/-- Python `f"{n:03d}"`: minimum width 3 counting the sign. -/
def fmt03 (n : Int) : List Char :=
  if n < 0 then '-' :: padZeros 2 (Nat.repr n.natAbs).data
  else padZeros 3 (Nat.repr n.natAbs).data

/-- The three textual readouts of the status bar. -/
structure Overlay where
  status : List Char
  angleText : List Char
  distText : List Char
deriving DecidableEq, Repr

/-- `draw_text` (lines 164-201), restricted to the sample-dependent
readouts: status `"Out"` when `i_distance > 40` else `"In"` (line 167),
angle `f"A:{i_angle:03d}°"` (line 192), and distance `f"D:{i_distance}cm"`
when `i_distance < 40`, else the placeholder `"D:---"` (lines 197-200). -/
def draw_text (a d : Int) : Overlay :=
  { status := if 40 < d then ['O', 'u', 't'] else ['I', 'n']
    angleText := 'A' :: ':' :: fmt03 a ++ ['°']
    distText :=
      if d < 40 then 'D' :: ':' :: (toString d).data ++ ['c', 'm']
      else ['D', ':', '-', '-', '-'] }

/-! ## Lemmas about splitting and the drain loop -/

theorem findSep_none_iff (sep : Char) (l : List Char) :
    findSep sep l = none ↔ sep ∉ l := by
  induction l with
  | nil => simp [findSep]
  | cons c rest ih =>
    by_cases h : c = sep
    · subst h; simp [findSep]
    · cases hr : findSep sep rest with
      | none =>
        simp only [findSep, if_neg h, hr]
        have hne : ¬sep = c := fun hs => h hs.symm
        simp [List.mem_cons, hne, ih.mp hr]
      | some p =>
        obtain ⟨m2, r2⟩ := p
        simp only [findSep, if_neg h, hr]
        have hsmem : sep ∈ rest := by
          by_contra hmem
          exact absurd (ih.mpr hmem) (by simp [hr])
        simp [List.mem_cons, hsmem]

theorem findSep_some (sep : Char) : ∀ {l m r : List Char},
    findSep sep l = some (m, r) → l = m ++ sep :: r := by
  intro l
  induction l with
  | nil => intro m r h; simp [findSep] at h
  | cons c rest ih =>
    intro m r h
    simp only [findSep] at h
    split at h
    · rename_i hc
      obtain ⟨hm, hr2⟩ : [] = m ∧ rest = r := by simpa using h
      subst hm; subst hr2; subst hc
      simp
    · rename_i hc
      cases hrs : findSep sep rest with
      | none => rw [hrs] at h; simp at h
      | some p =>
        obtain ⟨m2, r2⟩ := p
        rw [hrs] at h
        obtain ⟨hm, hr2⟩ : c :: m2 = m ∧ r2 = r := by simpa using h
        subst hm; subst hr2
        simp [ih hrs]

theorem findSep_append (sep : Char) : ∀ {l m r : List Char} (e : List Char),
    findSep sep l = some (m, r) → findSep sep (l ++ e) = some (m, r ++ e) := by
  intro l
  induction l with
  | nil => intro m r e h; simp [findSep] at h
  | cons c rest ih =>
    intro m r e h
    simp only [findSep] at h
    split at h
    · rename_i hc
      obtain ⟨hm, hr2⟩ : [] = m ∧ rest = r := by simpa using h
      subst hm; subst hr2
      simp [findSep, hc]
    · rename_i hc
      cases hrs : findSep sep rest with
      | none => rw [hrs] at h; simp at h
      | some p =>
        obtain ⟨m2, r2⟩ := p
        rw [hrs] at h
        obtain ⟨hm, hr2⟩ : c :: m2 = m ∧ r2 = r := by simpa using h
        subst hm; subst hr2
        simp only [List.cons_append, findSep, if_neg hc, List.append_eq, ih e hrs]

theorem findSep_some_length {sep : Char} {l m r : List Char}
    (h : findSep sep l = some (m, r)) : r.length < l.length := by
  rw [findSep_some sep h]
  simp [List.length_append]
  omega

/-- The drain loop's result does not depend on the fuel, as long as the
fuel covers the buffer length (each iteration removes a terminator, so
the buffer length bounds the iteration count). -/
theorem drainGo_congr : ∀ (n k : Nat) (st : DecSt),
    st.buf.length ≤ n → st.buf.length ≤ k → drainGo n st = drainGo k st := by
  intro n
  induction n with
  | zero =>
    intro k st hn _
    have hb : st.buf = [] := List.length_eq_zero.mp (Nat.le_zero.mp hn)
    cases k with
    | zero => rfl
    | succ k => simp [drainGo, hb, findSep]
  | succ n ih =>
    intro k st hn hk
    cases k with
    | zero =>
      have hb : st.buf = [] := List.length_eq_zero.mp (Nat.le_zero.mp hk)
      simp [drainGo, hb, findSep]
    | succ k =>
      simp only [drainGo]
      cases hf : findSep '.' st.buf with
      | none => rfl
      | some p =>
        obtain ⟨m, r⟩ := p
        dsimp only
        have hr : r.length < st.buf.length := findSep_some_length hf
        rw [ih k { buf := r, iAngle := (processMsg m st.iAngle st.iDistance).1.1,
                   iDistance := (processMsg m st.iAngle st.iDistance).1.2 }
              (by dsimp only; omega) (by dsimp only; omega)]

theorem drain_eq_none {st : DecSt} (h : findSep '.' st.buf = none) :
    drain st = (st, []) := by
  unfold drain
  cases hl : st.buf.length with
  | zero => rfl
  | succ n => simp [drainGo, h]

theorem drain_eq_some {st : DecSt} {m r : List Char}
    (h : findSep '.' st.buf = some (m, r)) :
    drain st =
      ((drain { buf := r, iAngle := (processMsg m st.iAngle st.iDistance).1.1,
                iDistance := (processMsg m st.iAngle st.iDistance).1.2 }).1,
       (processMsg m st.iAngle st.iDistance).2.toList ++
         (drain { buf := r, iAngle := (processMsg m st.iAngle st.iDistance).1.1,
                  iDistance := (processMsg m st.iAngle st.iDistance).1.2 }).2) := by
  have hlen : st.buf.length = m.length + r.length + 1 := by
    rw [findSep_some '.' h]
    simp [List.length_append]
    try omega
  unfold drain
  rw [hlen]
  simp only [drainGo, h]
  rw [drainGo_congr (m.length + r.length) r.length
        { buf := r, iAngle := (processMsg m st.iAngle st.iDistance).1.1,
          iDistance := (processMsg m st.iAngle st.iDistance).1.2 }
        (by dsimp only; omega) (by dsimp only; omega)]

theorem drainGo_no_dot : ∀ (n : Nat) (st : DecSt), st.buf.length ≤ n →
    '.' ∉ ((drainGo n st).1).buf := by
  intro n
  induction n with
  | zero =>
    intro st hn
    have hb : st.buf = [] := List.length_eq_zero.mp (Nat.le_zero.mp hn)
    simp [drainGo, hb]
  | succ n ih =>
    intro st hn
    simp only [drainGo]
    cases hf : findSep '.' st.buf with
    | none => exact (findSep_none_iff '.' st.buf).mp hf
    | some p =>
      obtain ⟨m, r⟩ := p
      dsimp only
      have hr : r.length < st.buf.length := findSep_some_length hf
      exact ih _ (by dsimp only; omega)

/-- After the drain loop, the buffer holds no terminator. -/
theorem drain_no_dot (st : DecSt) : '.' ∉ ((drain st).1).buf :=
  drainGo_no_dot _ _ le_rfl

/-- Feeding `chunk` after an earlier result: run the decoder on the
retained buffer plus the new text, appending the new samples. -/
def seqFeed (p : DecSt × List Sample) (chunk : List Char) : DecSt × List Sample :=
  ((feedText p.1 chunk).1, p.2 ++ (feedText p.1 chunk).2)

/-- Draining a buffer extended on the right is draining the original
buffer and then feeding the extension to the resulting state. -/
theorem drain_append : ∀ (buf : List Char) (a d : Int) (extra : List Char),
    drain ⟨buf ++ extra, a, d⟩ = seqFeed (drain ⟨buf, a, d⟩) extra := by
  suffices H : ∀ (n : Nat) (buf : List Char), buf.length ≤ n →
      ∀ (a d : Int) (extra : List Char),
      drain ⟨buf ++ extra, a, d⟩ = seqFeed (drain ⟨buf, a, d⟩) extra by
    intro buf a d extra
    exact H buf.length buf le_rfl a d extra
  intro n
  induction n with
  | zero =>
    intro buf hn a d extra
    have hb : buf = [] := List.length_eq_zero.mp (Nat.le_zero.mp hn)
    subst hb
    rw [@drain_eq_none ⟨[], a, d⟩ (by simp [findSep])]
    simp [seqFeed, feedText]
  | succ n ih =>
    intro buf hn a d extra
    cases hf : findSep '.' buf with
    | none =>
      rw [@drain_eq_none ⟨buf, a, d⟩ hf]
      simp [seqFeed, feedText]
    | some p =>
      obtain ⟨m, r⟩ := p
      have hr : r.length < buf.length := findSep_some_length hf
      have hf2 : findSep '.' (buf ++ extra) = some (m, r ++ extra) :=
        findSep_append '.' extra hf
      rw [@drain_eq_some ⟨buf ++ extra, a, d⟩ m (r ++ extra) hf2,
          @drain_eq_some ⟨buf, a, d⟩ m r hf]
      dsimp only
      rw [ih r (by omega)]
      simp [seqFeed, feedText, List.append_assoc]

/-- Text-level chunk fusion: feeding `x ++ y` in one call equals
feeding `x` and then `y`. -/
theorem feedText_append (st : DecSt) (x y : List Char) :
    feedText st (x ++ y) = seqFeed (feedText st x) y := by
  unfold feedText
  rw [← List.append_assoc]
  exact drain_append (st.buf ++ x) st.iAngle st.iDistance y

/-! ## Byte-level decoding lemmas -/

/-- On pure ASCII input the ignore-decoder is the byte-wise character
map and reports well-formed input. -/
theorem utf8DecodeIgnoreAux_ascii : ∀ (l : List Nat), (∀ b ∈ l, b < 128) →
    utf8DecodeIgnoreAux none l = (l.map Char.ofNat, true) := by
  intro l
  induction l with
  | nil => intro _; rfl
  | cons b rest ih =>
    intro h
    have hb : b < 128 := h b (by simp)
    simp only [utf8DecodeIgnoreAux, utf8Begin, if_pos hb]
    rw [ih (fun x hx => h x (by simp [hx]))]
    simp

/-- Bytes 0xF5-0xFF can never occur in well-formed UTF-8; a chunk made
only of such bytes decodes to the empty text. -/
theorem utf8DecodeIgnore_invalid : ∀ (l : List Nat), (∀ b ∈ l, 245 ≤ b) →
    utf8DecodeIgnore l = [] := by
  intro l
  induction l with
  | nil => intro _; rfl
  | cons b rest ih =>
    intro h
    have hb : 245 ≤ b := h b (by simp)
    have h1 : ¬b < 128 := by omega
    have h2 : ¬(194 ≤ b ∧ b ≤ 223) := by omega
    have h3 : ¬(224 ≤ b ∧ b ≤ 239) := by omega
    have h4 : ¬(240 ≤ b ∧ b ≤ 244) := by omega
    simp only [utf8DecodeIgnore, utf8DecodeIgnoreAux, utf8Begin,
      if_neg h1, if_neg h2, if_neg h3, if_neg h4]
    exact ih (fun x hx => h x (by simp [hx]))

/-! ## Claims about the decoder -/

/-- C1 (code evaluation at the failing input): starting from the sample
{angle 5, distance 99} and an empty buffer, feeding the terminated
message `"30,12,99."` emits no sample — the distance field `"12,99"`
fails integer parsing — but the retained state has angle 30: `i_angle`
was already overwritten when the `ValueError` was raised, so the Sample
IS partially updated, contradicting the claim that both fields are
retained unchanged. -/
theorem radar_C1_code_eval :
    feedBytes ⟨[], 5, 99⟩ (strBytes "30,12,99.") = (⟨[], 30, 99⟩, []) := by
  decide

/-- C3 (counterexample): the bytes of `"1é,2."` fed whole decode no
sample (the angle field `"1é"` is non-numeric), but fed split between
the two bytes of `é` both halves of the character are dropped by the
per-call `errors="ignore"` text decoding, the surviving text is
`"1,2."`, and one sample {1, 2} is decoded — so byte-level splitting is
NOT observationally neutral in general. -/
theorem radar_C3_counterexample :
    feedManyBytes ⟨[], 0, 0⟩ [[49, 195], [169, 44, 50, 46]] = (⟨[], 1, 2⟩, [⟨1, 2⟩]) ∧
    feedBytes ⟨[], 0, 0⟩ ([49, 195] ++ [169, 44, 50, 46]) = (⟨[], 0, 0⟩, []) ∧
    feedManyBytes ⟨[], 0, 0⟩ [[49, 195], [169, 44, 50, 46]] ≠
      feedBytes ⟨[], 0, 0⟩ ([49, 195] ++ [169, 44, 50, 46]) := by
  decide

/-- C3 (amended): for chunks of ASCII bytes — which covers the entire
wire format — feeding the sub-chunks sequentially produces exactly the
same decoded samples, the same final sample and the same retained
buffer as feeding the concatenation in one call. -/
theorem radar_C3_amended : ∀ (st : DecSt) (cs : List (List Nat)),
    (∀ c ∈ cs, ∀ b ∈ c, b < 128) →
    feedManyBytes st cs = feedBytes st cs.flatten := by
  intro st cs
  induction cs generalizing st with
  | nil => intro _; simp [feedManyBytes, feedBytes]
  | cons c cs ih =>
    intro h
    have hc : ∀ b ∈ c, b < 128 := h c (by simp)
    have hcs : ∀ c2 ∈ cs, ∀ b ∈ c2, b < 128 := fun c2 h2 => h c2 (by simp [h2])
    have hjoin : ∀ b ∈ cs.flatten, b < 128 := by
      intro b hb
      obtain ⟨c2, hc2, hbc⟩ := List.mem_flatten.mp hb
      exact hcs c2 hc2 b hbc
    have hnil : ∀ st2 : DecSt, feedBytes st2 [] = (st2, []) := by
      intro st2; simp [feedBytes]
    simp only [feedManyBytes]
    rw [ih _ hcs]
    by_cases hce : c = []
    · subst hce
      rw [hnil]
      simp
    · by_cases hje : cs.flatten = []
      · rw [hje, hnil]
        have hflat : (c :: cs).flatten = c := by simp [hje]
        rw [hflat]
        simp
      · have hlc : 0 < c.length := List.length_pos.mpr hce
        have hlj : 0 < cs.flatten.length := List.length_pos.mpr hje
        have hljc : 0 < (c ++ cs.flatten).length := by
          rw [List.length_append]
          omega
        have hca : ∀ b ∈ c ++ cs.flatten, b < 128 := by
          intro b hb
          rcases List.mem_append.mp hb with hb | hb
          · exact hc b hb
          · exact hjoin b hb
        have hdec : utf8DecodeIgnore (c ++ cs.flatten) =
            utf8DecodeIgnore c ++ utf8DecodeIgnore cs.flatten := by
          unfold utf8DecodeIgnore
          rw [utf8DecodeIgnoreAux_ascii _ hca, utf8DecodeIgnoreAux_ascii _ hc,
              utf8DecodeIgnoreAux_ascii _ hjoin]
          simp
        rw [List.flatten_cons]
        simp only [feedBytes, if_pos hlc, if_pos hlj, if_pos hljc]
        rw [hdec, feedText_append]
        simp [seqFeed]

theorem radar_C3_amended_witness :
    feedManyBytes ⟨[], 0, 0⟩ [strBytes "045,", strBytes "012."] =
      feedBytes ⟨[], 0, 0⟩ (strBytes "045," ++ strBytes "012.") := by
  have h := radar_C3_amended ⟨[], 0, 0⟩ [strBytes "045,", strBytes "012."] (by decide)
  simpa using h

/-- C4: feeding `"010,005.020,999."` in one call decodes the two
samples {10, 5} then {20, 999} in order, the retained sample is
{20, 999}, and the buffer is left empty. -/
theorem radar_C4 :
    feedBytes ⟨[], 0, 0⟩ (strBytes "010,005.020,999.") =
      (⟨[], 20, 999⟩, [⟨10, 5⟩, ⟨20, 999⟩]) := by
  decide

/-- C6 (counterexample): the chunk `b"\xff1,2."` is not decodable as
valid text (0xFF never occurs in UTF-8), yet the feed call does NOT
drop the chunk wholesale: `errors="ignore"` drops only the invalid
byte, the rest is processed, the state changes and a sample {1, 2} is
emitted. -/
theorem radar_C6_counterexample :
    utf8ValidText [255, 49, 44, 50, 46] = false ∧
    feedBytes ⟨[], 0, 0⟩ [255, 49, 44, 50, 46] = (⟨[], 1, 2⟩, [⟨1, 2⟩]) ∧
    ((⟨[], 1, 2⟩ : DecSt), [(⟨1, 2⟩ : Sample)]) ≠ ((⟨[], 0, 0⟩ : DecSt), []) := by
  decide

/-- C6 (amended): undecodable bytes are dropped individually and
silently, never crashing; a chunk none of whose bytes can start valid
text (here: bytes 0xF5-0xFF) decodes to nothing, so the feed call
leaves the previous state unchanged and emits nothing. -/
theorem radar_C6_amended : ∀ (st : DecSt) (c : List Nat),
    (∀ b ∈ c, 245 ≤ b) → '.' ∉ st.buf →
    utf8DecodeIgnore c = [] ∧ feedBytes st c = (st, []) := by
  intro st c hc hdot
  have hdec : utf8DecodeIgnore c = [] := utf8DecodeIgnore_invalid c hc
  refine ⟨hdec, ?_⟩
  by_cases hce : 0 < c.length
  · simp only [feedBytes, if_pos hce, feedText, hdec, List.append_nil]
    exact drain_eq_none ((findSep_none_iff '.' st.buf).mpr hdot)
  · simp [feedBytes, hce]

theorem radar_C6_amended_witness :
    utf8DecodeIgnore [255, 250] = [] ∧
    feedBytes ⟨['x'], 3, 4⟩ [255, 250] = (⟨['x'], 3, 4⟩, []) :=
  radar_C6_amended ⟨['x'], 3, 4⟩ [255, 250] (by decide) (by decide)

/-- C10: after any feed call that received bytes, the drain loop has
consumed every terminated message: the retained buffer contains no
terminator character. -/
theorem radar_C10 : ∀ (st : DecSt) (c : List Nat), 0 < c.length →
    '.' ∉ ((feedBytes st c).1).buf := by
  intro st c h
  simp only [feedBytes, if_pos h, feedText]
  exact drain_no_dot _

theorem radar_C10_witness :
    0 < ([52, 54, 46] : List Nat).length ∧
    '.' ∉ ((feedBytes ⟨['9', ','], 1, 2⟩ [52, 54, 46]).1).buf :=
  ⟨by decide, radar_C10 ⟨['9', ','], 1, 2⟩ [52, 54, 46] (by decide)⟩

/-! ## Claims about the renderer -/

/-- C5: the detection marker is drawn exactly when the current distance
is strictly below the threshold 40; at distance 40 nothing is drawn, at
39 the marker is drawn. -/
theorem radar_C5 :
    (∀ a d : Int, (draw_object a d).isSome ↔ d < 40) ∧
    draw_object 0 40 = none ∧ (draw_object 0 39).isSome = true := by
  refine ⟨fun a d => ?_, ?_, ?_⟩
  · by_cases hd : d < 40 <;> simp [draw_object, hd]
  · norm_num [draw_object]
  · norm_num [draw_object]

/-- C2 (counterexample): the defaults are angle 0 and distance 0; the
default distance is strictly below the detection threshold 40, not at
or above it, and the detection marker IS drawn for the default sample,
so a marker renders before the first valid decode. -/
theorem radar_C2_counterexample :
    i_distance0 < 40 ∧ (draw_object i_angle0 i_distance0).isSome = true := by
  constructor
  · norm_num [i_distance0]
  · norm_num [draw_object, i_angle0, i_distance0]

/-- C2 (amended): before the first successful decode the current sample
is {angle 0, distance 0}; since 0 is below the threshold 40, the
renderer draws a (degenerate, centered) detection marker on every frame
preceding the first valid decode. -/
theorem radar_C2_amended :
    i_angle0 = 0 ∧ i_distance0 = 0 ∧
    (draw_object i_angle0 i_distance0).isSome = true := by
  refine ⟨rfl, rfl, ?_⟩
  norm_num [draw_object, i_angle0, i_distance0]

/-- C9: the projection of the source is exactly the projection written
from the specification text: `pixelX = Cx + xLocal`, `pixelY = Cy -
yLocal` with the fixed center (240, 210), truncated to integers. -/
theorem radar_C9 : ∀ x y : ℝ,
    processing_to_screen x y = toScreen_specification x y := by
  intro x y
  norm_num [processing_to_screen, toScreen_specification, RADAR_CX, RADAR_CY]

/-- The live distance readout always ends in `m`, so it is never the
placeholder `"D:---"`. -/
theorem distText_ne_placeholder (d : Int) :
    (toString d).data ++ ['c', 'm'] ≠ ['-', '-', '-'] := by
  intro hEq
  have hm : 'm' ∈ (toString d).data ++ ['c', 'm'] := by simp
  rw [hEq] at hm
  exact absurd hm (by decide)

/-- C8 (counterexample): at distance exactly 40 the status readout is
`"In"` — not the out-of-range text — while the distance readout is the
placeholder `"D:---"`, so the placeholder is not shown exactly for the
out-of-range samples. -/
theorem radar_C8_counterexample :
    (draw_text 0 40).status = ['I', 'n'] ∧
    (draw_text 0 40).distText = ['D', ':', '-', '-', '-'] ∧
    (['I', 'n'] : List Char) ≠ ['O', 'u', 't'] := by
  refine ⟨?_, ?_, by decide⟩
  · norm_num [draw_text]
  · norm_num [draw_text]

/-- C8 (amended): the overlay is a pure function of the current sample;
the status reads out-of-range exactly when distance > 40, the distance
placeholder is shown exactly when distance ≥ 40 (so the two disagree
only at distance exactly 40), and the angle text pads the angle to at
least 3 characters. -/
theorem radar_C8_amended : ∀ a d : Int,
    ((draw_text a d).status = ['O', 'u', 't'] ↔ 40 < d) ∧
    ((draw_text a d).distText = ['D', ':', '-', '-', '-'] ↔ 40 ≤ d) ∧
    3 ≤ (fmt03 a).length := by
  intro a d
  refine ⟨?_, ?_, ?_⟩
  · by_cases h : 40 < d
    · simp [draw_text, h]
    · simp [draw_text, h, show (['I', 'n'] : List Char) ≠ ['O', 'u', 't'] from by decide]
  · by_cases h : d < 40
    · simp [draw_text, h, distText_ne_placeholder d, show ¬(40 ≤ d) from by omega]
    · simp [draw_text, h, show (40 : Int) ≤ d from by omega]
  · by_cases hn : a < 0
    · simp [fmt03, hn, padZeros, List.length_append, List.length_replicate]
      omega
    · simp [fmt03, hn, padZeros, List.length_append, List.length_replicate]
      omega

/-- Truncation toward zero agrees with the floor on nonnegative input. -/
theorem pyTrunc_of_nonneg {x : ℝ} (h : 0 ≤ x) : pyTrunc x = ⌊x⌋ := if_pos h

/-- C7 (counterexample): at radius 200 the screen y-coordinate of the
composed projection is 10 at angle 90° and 210 at angle 0°: as the
angle decreases from 90° toward 0° the screen y-coordinate does NOT
strictly decrease — it grows (the y-flip sends decreasing local y to
increasing pixel y). -/
theorem radar_C7_counterexample :
    (processing_to_screen (polarToLocal 90 200).1 (polarToLocal 90 200).2).2 = 10 ∧
    (processing_to_screen (polarToLocal 0 200).1 (polarToLocal 0 200).2).2 = 210 ∧
    ¬((processing_to_screen (polarToLocal 0 200).1 (polarToLocal 0 200).2).2 <
      (processing_to_screen (polarToLocal 90 200).1 (polarToLocal 90 200).2).2) := by
  have h90 : (90 : ℝ) * Real.pi / 180 = Real.pi / 2 := by ring
  have hy90 : (polarToLocal 90 200).2 = 200 := by
    simp [polarToLocal, h90, Real.sin_pi_div_two]
  have h0 : (0 : ℝ) * Real.pi / 180 = 0 := by ring
  have hy0 : (polarToLocal 0 200).2 = 0 := by
    simp [polarToLocal, h0, Real.sin_zero]
  have e90 : (processing_to_screen (polarToLocal 90 200).1 (polarToLocal 90 200).2).2 = 10 := by
    simp only [processing_to_screen, hy90]
    rw [show ((RADAR_CY : ℝ) - 200) = ((10 : Int) : ℝ) by norm_num [RADAR_CY]]
    rw [pyTrunc_of_nonneg (by norm_num), Int.floor_intCast]
  have e0 : (processing_to_screen (polarToLocal 0 200).1 (polarToLocal 0 200).2).2 = 210 := by
    simp only [processing_to_screen, hy0]
    rw [show ((RADAR_CY : ℝ) - 0) = ((210 : Int) : ℝ) by norm_num [RADAR_CY]]
    rw [pyTrunc_of_nonneg (by norm_num), Int.floor_intCast]
  refine ⟨e90, e0, ?_⟩
  rw [e90, e0]
  decide

/-- C7 (amended): for every angle in [0°, 180°] and radius in [0, 200]
the composed projection lands inside the 480x320 canvas; and for
positive radius, as the angle decreases from 90° toward 0° the local
y-coordinate strictly decreases, hence — after the y-flip — the screen
y-coordinate weakly increases (only weakly, because of the integer
truncation). -/
theorem radar_C7_amended :
    (∀ θ r : ℝ, 0 ≤ θ → θ ≤ 180 → 0 ≤ r → r ≤ 200 →
      0 ≤ (processing_to_screen (polarToLocal θ r).1 (polarToLocal θ r).2).1 ∧
      (processing_to_screen (polarToLocal θ r).1 (polarToLocal θ r).2).1 < WIDTH ∧
      0 ≤ (processing_to_screen (polarToLocal θ r).1 (polarToLocal θ r).2).2 ∧
      (processing_to_screen (polarToLocal θ r).1 (polarToLocal θ r).2).2 < HEIGHT) ∧
    (∀ θ1 θ2 r : ℝ, 0 ≤ θ2 → θ2 < θ1 → θ1 ≤ 90 → 0 < r → r ≤ 200 →
      (polarToLocal θ2 r).2 < (polarToLocal θ1 r).2 ∧
      (processing_to_screen (polarToLocal θ1 r).1 (polarToLocal θ1 r).2).2 ≤
        (processing_to_screen (polarToLocal θ2 r).1 (polarToLocal θ2 r).2).2) := by
  constructor
  · intro θ r h0 h180 hr0 hr200
    have hpi : (0 : ℝ) < Real.pi := Real.pi_pos
    have hcos1 : Real.cos (θ * Real.pi / 180) ≤ 1 := Real.cos_le_one _
    have hcosm1 : -1 ≤ Real.cos (θ * Real.pi / 180) := Real.neg_one_le_cos _
    have hrad0 : 0 ≤ θ * Real.pi / 180 := by positivity
    have hradpi : θ * Real.pi / 180 ≤ Real.pi := by nlinarith
    have hsin0 : 0 ≤ Real.sin (θ * Real.pi / 180) :=
      Real.sin_nonneg_of_nonneg_of_le_pi hrad0 hradpi
    have hsin1 : Real.sin (θ * Real.pi / 180) ≤ 1 := Real.sin_le_one _
    have hx1 : r * Real.cos (θ * Real.pi / 180) ≤ 200 := by nlinarith
    have hx2 : -200 ≤ r * Real.cos (θ * Real.pi / 180) := by nlinarith
    have hy1 : r * Real.sin (θ * Real.pi / 180) ≤ 200 := by nlinarith
    have hy2 : 0 ≤ r * Real.sin (θ * Real.pi / 180) := mul_nonneg hr0 hsin0
    simp only [processing_to_screen, polarToLocal, WIDTH, HEIGHT]
    have hAx : (0 : ℝ) ≤ (RADAR_CX : ℝ) + r * Real.cos (θ * Real.pi / 180) := by
      norm_num [RADAR_CX]; nlinarith
    have hAy : (0 : ℝ) ≤ (RADAR_CY : ℝ) - r * Real.sin (θ * Real.pi / 180) := by
      norm_num [RADAR_CY]; nlinarith
    rw [pyTrunc_of_nonneg hAx, pyTrunc_of_nonneg hAy]
    refine ⟨Int.le_floor.mpr (by push_cast; linarith),
      Int.floor_lt.mpr (by push_cast; norm_num [RADAR_CX]; nlinarith),
      Int.le_floor.mpr (by push_cast; linarith),
      Int.floor_lt.mpr (by push_cast; norm_num [RADAR_CY]; nlinarith)⟩
  · intro θ1 θ2 r h2 h21 h190 hr hr200
    have hpi : (0 : ℝ) < Real.pi := Real.pi_pos
    have hr21 : θ2 * Real.pi / 180 < θ1 * Real.pi / 180 := by
      have h := mul_lt_mul_of_pos_right h21 hpi
      linarith
    have hub : θ1 * Real.pi / 180 ≤ Real.pi / 2 := by
      have h := mul_le_mul_of_nonneg_right h190 hpi.le
      linarith
    have hlb2 : 0 ≤ θ2 * Real.pi / 180 := by positivity
    have hmem2 : θ2 * Real.pi / 180 ∈ Set.Icc (-(Real.pi / 2)) (Real.pi / 2) :=
      ⟨by linarith, by linarith⟩
    have hmem1 : θ1 * Real.pi / 180 ∈ Set.Icc (-(Real.pi / 2)) (Real.pi / 2) :=
      ⟨by linarith, hub⟩
    have hsinlt : Real.sin (θ2 * Real.pi / 180) < Real.sin (θ1 * Real.pi / 180) :=
      Real.strictMonoOn_sin hmem2 hmem1 hr21
    have hsin2nn : 0 ≤ Real.sin (θ2 * Real.pi / 180) :=
      Real.sin_nonneg_of_nonneg_of_le_pi hlb2 (by linarith)
    have hsin1le : Real.sin (θ1 * Real.pi / 180) ≤ 1 := Real.sin_le_one _
    have hylt : r * Real.sin (θ2 * Real.pi / 180) < r * Real.sin (θ1 * Real.pi / 180) :=
      mul_lt_mul_of_pos_left hsinlt hr
    constructor
    · simpa only [polarToLocal] using hylt
    · simp only [processing_to_screen, polarToLocal]
      have hAy1 : (0 : ℝ) ≤ (RADAR_CY : ℝ) - r * Real.sin (θ1 * Real.pi / 180) := by
        norm_num [RADAR_CY]; nlinarith
      have hAy2 : (0 : ℝ) ≤ (RADAR_CY : ℝ) - r * Real.sin (θ2 * Real.pi / 180) := by
        norm_num [RADAR_CY]; nlinarith
      rw [pyTrunc_of_nonneg hAy1, pyTrunc_of_nonneg hAy2]
      exact Int.floor_le_floor (by linarith)

theorem radar_C7_amended_witness :
    (0 ≤ (processing_to_screen (polarToLocal 90 100).1 (polarToLocal 90 100).2).1 ∧
      (processing_to_screen (polarToLocal 90 100).1 (polarToLocal 90 100).2).1 < WIDTH ∧
      0 ≤ (processing_to_screen (polarToLocal 90 100).1 (polarToLocal 90 100).2).2 ∧
      (processing_to_screen (polarToLocal 90 100).1 (polarToLocal 90 100).2).2 < HEIGHT) ∧
    (polarToLocal 45 100).2 < (polarToLocal 90 100).2 ∧
    (processing_to_screen (polarToLocal 90 100).1 (polarToLocal 90 100).2).2 ≤
      (processing_to_screen (polarToLocal 45 100).1 (polarToLocal 45 100).2).2 :=
  ⟨radar_C7_amended.1 90 100 (by norm_num) (by norm_num) (by norm_num) (by norm_num),
   radar_C7_amended.2 90 45 100 (by norm_num) (by norm_num) (by norm_num) (by norm_num)
     (by norm_num)⟩

end Radar
